import Mathlib

/-!
Verification of the task-list core of a small to-do application.

The application state lives in a root component: a list of tasks
(each `{ id, title, done }`), a filter string, and a small add-form
with a `title` input and an `error` message.  The mutating operations
are `handleAddTodo`, `handleToggleTodo`, `handleDeleteTodo` and
`setFilter`; the derived view is `filteredTodos`, and the footer
counters are `pendingCount` and `doneCount`.  State is loaded once at
startup from a key-value string store (lazy useState initializers)
and written back after every change.

All definitions below are direct shallow embeddings of the source
functions; the external platform pieces (the key-value store and the
JSON parser) appear as explicit parameters.
-/

namespace Todo

/-- A task record, as created by `handleAddTodo`:
`{ id: crypto.randomUUID(), title, done: false }`. -/
structure Task where
  id : String
  title : String
  done : Bool
deriving Repr, DecidableEq

/-- The id projection of a task sequence, used to state uniqueness. -/
def ids (todos : List Task) : List String :=
  todos.map Task.id

/-- The local state of the add form (`TodoForm`): the controlled input
value `title` and the validation message `error`. -/
structure FormState where
  title : String
  error : String
deriving Repr, DecidableEq

/-- `handleAddTodo` from the root component:
`const newTodo = { id: crypto.randomUUID(), title, done: false };`
`setTodos(prev => [...prev, newTodo]);`
The platform call `crypto.randomUUID()` is passed in as `newId`. -/
def handleAddTodo (newId : String) (title : String) (todos : List Task) : List Task :=
  todos ++ [⟨newId, title, false⟩]

/-- The platform `String.prototype.trim` used by `handleSubmit`:
removes leading and trailing whitespace characters, modelled directly
on the underlying character list. -/
def jsTrim (s : String) : String :=
  ⟨((s.data.dropWhile Char.isWhitespace).reverse.dropWhile
      Char.isWhitespace).reverse⟩

/-- `handleSubmit` from `TodoForm`, composed with the `onAdd` prop,
which the root component wires to `handleAddTodo`:
trims the title; when the trimmed title is empty it sets the error
message and returns without touching the list or the input; otherwise
it calls `onAdd(trimmedTitle)` and clears both input and error. -/
def handleSubmit (newId : String) (st : FormState) (todos : List Task) :
    FormState × List Task :=
  let trimmedTitle := jsTrim st.title
  if trimmedTitle = "" then
    ({ st with error := "El título no puede estar vacío" }, todos)
  else
    (⟨"", ""⟩, handleAddTodo newId trimmedTitle todos)

/-- `handleToggleTodo`:
`setTodos(prev => prev.map(t => t.id === id ? { ...t, done: !t.done } : t));` -/
def handleToggleTodo (id : String) (todos : List Task) : List Task :=
  todos.map (fun t => if t.id = id then { t with done := !t.done } else t)

/-- `handleDeleteTodo`:
`setTodos(prev => prev.filter(t => t.id !== id));` -/
def handleDeleteTodo (id : String) (todos : List Task) : List Task :=
  todos.filter (fun t => t.id ≠ id)

/-- `filteredTodos`, the derived view:
keeps the not-done tasks under `"active"`, the done tasks under
`"done"`, and everything under any other filter value. -/
def filteredTodos (filter : String) (todos : List Task) : List Task :=
  todos.filter (fun todo =>
    if filter = "active" then !todo.done
    else if filter = "done" then todo.done
    else true)

/-- `pendingCount`: `todos.filter(t => !t.done).length`. -/
def pendingCount (todos : List Task) : Nat :=
  (todos.filter (fun t => !t.done)).length

/-- `doneCount`: `todos.filter(t => t.done).length`. -/
def doneCount (todos : List Task) : Nat :=
  (todos.filter (fun t => t.done)).length

/-- The root component state: the task list and the active filter. -/
structure AppState where
  todos : List Task
  filter : String
deriving Repr, DecidableEq

/-- `setFilter`, as passed to `FilterBar` via `onFilterChange`:
replaces the filter value, leaving the task list untouched. -/
def setFilter (mode : String) (s : AppState) : AppState :=
  { s with filter := mode }

/-- The lazy initializer of `todos`:
`try { const saved = localStorage.getItem("todos");`
`      return saved ? JSON.parse(saved) : []; } catch { return []; }`
The store lookup result is `saved` (`none` models a `null` return) and
the platform JSON parser is the parameter `parse`, where `parse s = none`
models `JSON.parse` throwing (caught by the surrounding try/catch).
A stored empty string is falsy in the source, hence also yields `[]`. -/
def initTodos (saved : Option String) (parse : String → Option (List Task)) :
    List Task :=
  match saved with
  | none => []
  | some s =>
      if s = "" then []
      else
        match parse s with
        | some v => v
        | none => []

/-- The lazy initializer of `filter`:
`const saved = localStorage.getItem("filter"); return saved || "all";`
Any truthy (non-empty) stored string is returned as-is. -/
def initFilter (saved : Option String) : String :=
  match saved with
  | none => "all"
  | some s => if s = "" then "all" else s

/-! ## Helper lemmas -/

/-- If no task carries id `X`, the tasks with id `X` filter to nothing. -/
theorem filter_id_eq_nil_of_not_mem (X : String) (todos : List Task)
    (h : X ∉ ids todos) :
    todos.filter (fun t => t.id = X) = [] := by
  induction todos with
  | nil => rfl
  | cons t ts ih =>
      simp only [ids, List.map_cons, List.mem_cons, not_or] at h
      simp only [List.filter_cons]
      have ht : ¬ (t.id = X) := fun hc => h.1 hc.symm
      simp [ht, ih h.2]

/-- With unique ids, a present id is carried by exactly one task. -/
theorem length_filter_id_eq_one (X : String) (todos : List Task)
    (hnd : (ids todos).Nodup) (hmem : X ∈ ids todos) :
    (todos.filter (fun t => t.id = X)).length = 1 := by
  induction todos with
  | nil => simp [ids] at hmem
  | cons t ts ih =>
      simp only [ids, List.map_cons, List.nodup_cons] at hnd
      simp only [ids, List.map_cons, List.mem_cons] at hmem
      simp only [List.filter_cons]
      by_cases h : t.id = X
      · have : X ∉ ids ts := h ▸ hnd.1
        simp [h, filter_id_eq_nil_of_not_mem X ts this]
      · have hx : X ∈ ids ts := by
          cases hmem with
          | inl hx => exact absurd hx.symm h
          | inr hx => exact hx
        simp [h, ih hnd.2 hx]

/-- Splitting a task list by one id preserves the total length. -/
theorem length_filter_id_split (X : String) (todos : List Task) :
    (todos.filter (fun t => t.id ≠ X)).length
      + (todos.filter (fun t => t.id = X)).length = todos.length := by
  induction todos with
  | nil => rfl
  | cons t ts ih =>
      simp only [List.filter_cons]
      by_cases h : t.id = X
      · simp [h, ← ih]
        omega
      · simp [h, ← ih]
        omega

/-- Toggling the same id twice restores the task list. -/
theorem toggle_toggle (X : String) (todos : List Task) :
    handleToggleTodo X (handleToggleTodo X todos) = todos := by
  induction todos with
  | nil => rfl
  | cons t ts ih =>
      simp only [handleToggleTodo, List.map_cons] at ih ⊢
      by_cases h : t.id = X
      · simp [h, ih]
        rw [← h]
      · simp [h, ih]

/-- Toggling never changes the id sequence. -/
theorem ids_toggle (X : String) (todos : List Task) :
    ids (handleToggleTodo X todos) = ids todos := by
  induction todos with
  | nil => rfl
  | cons t ts ih =>
      simp only [handleToggleTodo, ids, List.map_cons] at ih ⊢
      by_cases h : t.id = X
      · simp [h, ih]
      · simp [h, ih]

/-- Toggling an id carried by no task changes nothing. -/
theorem toggle_not_mem (X : String) (todos : List Task)
    (h : X ∉ ids todos) :
    handleToggleTodo X todos = todos := by
  induction todos with
  | nil => rfl
  | cons t ts ih =>
      simp only [ids, List.map_cons, List.mem_cons, not_or] at h
      have ht : ¬ (t.id = X) := fun hc => h.1 hc.symm
      simp only [handleToggleTodo, List.map_cons] at ih ⊢
      simp [ht, ih (by simpa [ids] using h.2)]

/-- Deleting an id carried by no task changes nothing. -/
theorem delete_not_mem (X : String) (todos : List Task)
    (h : X ∉ ids todos) :
    handleDeleteTodo X todos = todos := by
  induction todos with
  | nil => rfl
  | cons t ts ih =>
      simp only [ids, List.map_cons, List.mem_cons, not_or] at h
      have ht : ¬ (t.id = X) := fun hc => h.1 hc.symm
      simp only [handleDeleteTodo, List.filter_cons] at ih ⊢
      simp [ht, ih (by simpa [ids] using h.2)]
      intro a ha hc
      exact h.2 (by simp only [List.mem_map]; exact ⟨a, ha, hc⟩)

/-- Deleting the same id twice equals deleting it once. -/
theorem delete_idem (X : String) (todos : List Task) :
    handleDeleteTodo X (handleDeleteTodo X todos) = handleDeleteTodo X todos := by
  induction todos with
  | nil => rfl
  | cons t ts ih =>
      simp only [handleDeleteTodo, List.filter_cons] at ih ⊢
      by_cases h : t.id = X
      · simp [h, ih]
      · simp [h, ih]

/-! ## Claim theorems -/

/-- C1: for every title that is non-empty after trimming, the add flow
(`handleSubmit` feeding `handleAddTodo`) appends to the end of the
sequence exactly one new task whose title is the trimmed input, whose
`done` flag is `false` and whose id is the freshly generated `newId`;
the count grows by one, the pre-existing tasks are unchanged, and the
fresh id differs from every existing id. -/
theorem add_spec (newId title err : String) (todos : List Task)
    (hne : jsTrim title ≠ "") (hfresh : newId ∉ ids todos) :
    (handleSubmit newId ⟨title, err⟩ todos).2
        = todos ++ [⟨newId, jsTrim title, false⟩] ∧
    (handleSubmit newId ⟨title, err⟩ todos).2.length = todos.length + 1 ∧
    ∀ t ∈ todos, t.id ≠ newId := by
  refine ⟨?_, ?_, ?_⟩
  · simp [handleSubmit, hne, handleAddTodo]
  · simp [handleSubmit, hne, handleAddTodo]
  · intro t ht hc
    exact hfresh (by simp only [ids, List.mem_map]; exact ⟨t, ht, hc⟩)

/-- Witness for C1 at a concrete input. -/
theorem add_spec_witness :
    (handleSubmit "u1" ⟨" milk ", ""⟩ [⟨"a", "x", false⟩]).2
        = [⟨"a", "x", false⟩] ++ [⟨"u1", jsTrim " milk ", false⟩] ∧
    (handleSubmit "u1" ⟨" milk ", ""⟩ [⟨"a", "x", false⟩]).2.length
        = [(⟨"a", "x", false⟩ : Task)].length + 1 ∧
    ∀ t ∈ [(⟨"a", "x", false⟩ : Task)], t.id ≠ "u1" :=
  add_spec "u1" " milk " "" [⟨"a", "x", false⟩] (by decide) (by decide)

/-- C2: for every title that is empty after trimming, the add flow
leaves the task sequence unchanged, keeps the input field content, and
signals the validation failure through a non-empty error message. -/
theorem add_rejects_empty (newId title err : String) (todos : List Task)
    (h : jsTrim title = "") :
    (handleSubmit newId ⟨title, err⟩ todos).2 = todos ∧
    (handleSubmit newId ⟨title, err⟩ todos).1.title = title ∧
    (handleSubmit newId ⟨title, err⟩ todos).1.error ≠ "" := by
  refine ⟨?_, ?_, ?_⟩
  · simp [handleSubmit, h]
  · simp [handleSubmit, h]
  · simp [handleSubmit, h]

/-- Witness for C2 at a concrete input. -/
theorem add_rejects_empty_witness :
    (handleSubmit "u1" ⟨"   ", ""⟩ [⟨"a", "x", false⟩]).2
        = [⟨"a", "x", false⟩] ∧
    (handleSubmit "u1" ⟨"   ", ""⟩ [⟨"a", "x", false⟩]).1.title = "   " ∧
    (handleSubmit "u1" ⟨"   ", ""⟩ [⟨"a", "x", false⟩]).1.error ≠ "" :=
  add_rejects_empty "u1" "   " "" [⟨"a", "x", false⟩] (by decide)

/-- C3: for every state with unique ids and every id X present in the
sequence, toggle replaces exactly the task carrying X by a copy with
`done` inverted, leaves every other task and the order unchanged
(witnessed by the split of the sequence around the unique occurrence),
keeps the length, and toggling twice restores the original sequence. -/
theorem toggle_spec (X : String) (todos : List Task)
    (hnd : (ids todos).Nodup) (hmem : X ∈ ids todos) :
    (∃ pre t post,
        todos = pre ++ t :: post ∧ t.id = X ∧
        X ∉ ids pre ∧ X ∉ ids post ∧
        handleToggleTodo X todos
          = pre ++ { t with done := !t.done } :: post) ∧
    (handleToggleTodo X todos).length = todos.length ∧
    handleToggleTodo X (handleToggleTodo X todos) = todos := by
  refine ⟨?_, by simp [handleToggleTodo], toggle_toggle X todos⟩
  simp only [ids, List.mem_map] at hmem
  obtain ⟨t, ht, hid⟩ := hmem
  obtain ⟨pre, post, rfl⟩ := List.append_of_mem ht
  have hnd2 : X ∉ ids pre ∧ X ∉ ids post := by
    simp only [ids, List.map_append, List.map_cons] at hnd
    have := List.nodup_middle.mp hnd
    rw [List.nodup_cons] at this
    have hnm := this.1
    rw [List.mem_append] at hnm
    push_neg at hnm
    rw [← hid]
    exact ⟨hnm.1, hnm.2⟩
  refine ⟨pre, t, post, rfl, hid, hnd2.1, hnd2.2, ?_⟩
  simp only [handleToggleTodo, List.map_append, List.map_cons]
  rw [show List.map
        (fun t => if t.id = X then { t with done := !t.done } else t) pre
      = handleToggleTodo X pre from rfl]
  rw [show List.map
        (fun t => if t.id = X then { t with done := !t.done } else t) post
      = handleToggleTodo X post from rfl]
  rw [toggle_not_mem X pre hnd2.1, toggle_not_mem X post hnd2.2, if_pos hid]

/-- Witness for C3 at a concrete input. -/
theorem toggle_spec_witness :
    (∃ pre t post,
        ([⟨"a", "x", false⟩, ⟨"b", "y", true⟩] : List Task)
            = pre ++ t :: post ∧ t.id = "b" ∧
        "b" ∉ ids pre ∧ "b" ∉ ids post ∧
        handleToggleTodo "b" [⟨"a", "x", false⟩, ⟨"b", "y", true⟩]
          = pre ++ { t with done := !t.done } :: post) ∧
    (handleToggleTodo "b" [⟨"a", "x", false⟩, ⟨"b", "y", true⟩]).length
        = ([⟨"a", "x", false⟩, ⟨"b", "y", true⟩] : List Task).length ∧
    handleToggleTodo "b"
        (handleToggleTodo "b" [⟨"a", "x", false⟩, ⟨"b", "y", true⟩])
      = [⟨"a", "x", false⟩, ⟨"b", "y", true⟩] :=
  toggle_spec "b" [⟨"a", "x", false⟩, ⟨"b", "y", true⟩] (by decide) (by decide)

/-- C4: for every state with unique ids and every id X present in the
sequence, delete removes exactly one task, the remaining tasks keep
their relative order (the result is a sublist of the original), a task
of the original sequence survives exactly when its id is not X, and a
second delete of the same id changes nothing. -/
theorem delete_spec (X : String) (todos : List Task)
    (hnd : (ids todos).Nodup) (hmem : X ∈ ids todos) :
    (handleDeleteTodo X todos).length + 1 = todos.length ∧
    (handleDeleteTodo X todos).Sublist todos ∧
    (∀ t ∈ todos, (t ∈ handleDeleteTodo X todos ↔ t.id ≠ X)) ∧
    handleDeleteTodo X (handleDeleteTodo X todos)
        = handleDeleteTodo X todos := by
  refine ⟨?_, List.filter_sublist todos, ?_, delete_idem X todos⟩
  · have h1 := length_filter_id_split X todos
    have h2 := length_filter_id_eq_one X todos hnd hmem
    simp only [handleDeleteTodo]
    omega
  · intro t ht
    simp [handleDeleteTodo, List.mem_filter, ht]

/-- Witness for C4 at a concrete input. -/
theorem delete_spec_witness :
    (handleDeleteTodo "a" [⟨"a", "x", false⟩, ⟨"b", "y", true⟩]).length + 1
        = ([⟨"a", "x", false⟩, ⟨"b", "y", true⟩] : List Task).length ∧
    (handleDeleteTodo "a" [⟨"a", "x", false⟩, ⟨"b", "y", true⟩]).Sublist
        [⟨"a", "x", false⟩, ⟨"b", "y", true⟩] ∧
    (∀ t ∈ ([⟨"a", "x", false⟩, ⟨"b", "y", true⟩] : List Task),
        (t ∈ handleDeleteTodo "a" [⟨"a", "x", false⟩, ⟨"b", "y", true⟩]
          ↔ t.id ≠ "a")) ∧
    handleDeleteTodo "a"
        (handleDeleteTodo "a" [⟨"a", "x", false⟩, ⟨"b", "y", true⟩])
      = handleDeleteTodo "a" [⟨"a", "x", false⟩, ⟨"b", "y", true⟩] :=
  delete_spec "a" [⟨"a", "x", false⟩, ⟨"b", "y", true⟩] (by decide) (by decide)

/-- C5: the derived view keeps under `"active"` exactly the tasks with
`done = false`, under `"done"` exactly those with `done = true`, and
under `"all"` the whole sequence; in every case it is a sublist of the
underlying sequence, so the relative order is preserved, and it is a
pure function of the state. -/
theorem filteredTodos_spec (todos : List Task) :
    filteredTodos "active" todos = todos.filter (fun t => !t.done) ∧
    filteredTodos "done" todos = todos.filter (fun t => t.done) ∧
    filteredTodos "all" todos = todos ∧
    ∀ f, (filteredTodos f todos).Sublist todos := by
  refine ⟨?_, ?_, ?_, fun f => List.filter_sublist todos⟩
  · simp [filteredTodos]
  · simp [filteredTodos]
  · simp [filteredTodos]

/-- C6: the pending count plus the completed count always equals the
total number of tasks in the unfiltered sequence. -/
theorem counts_partition (todos : List Task) :
    pendingCount todos + doneCount todos = todos.length := by
  induction todos with
  | nil => rfl
  | cons t ts ih =>
      simp only [pendingCount, doneCount, List.filter_cons] at ih ⊢
      by_cases h : t.done <;> simp [h] <;> omega

/-- C7 counterexample: the filter initializer keeps an invalid stored
value such as `"banana"` verbatim instead of falling back to `"all"`. -/
theorem initFilter_keeps_invalid :
    initFilter (some "banana") ≠ "all" ∧
    initFilter (some "banana") = "banana" := by
  exact ⟨by decide, by decide⟩

/-- C7 amended: at startup an absent or unparseable stored `todos`
value yields the empty sequence, an absent or empty stored `filter`
value yields `"all"`, and the parse failure is absorbed (both
initializers are total); however any non-empty stored filter string,
valid or not, is kept verbatim. -/
theorem init_defaults (parse : String → Option (List Task)) (s f : String)
    (hparse : parse s = none) (hf : f ≠ "") :
    initTodos none parse = [] ∧
    initTodos (some s) parse = [] ∧
    initFilter none = "all" ∧
    initFilter (some "") = "all" ∧
    initFilter (some f) = f := by
  refine ⟨rfl, ?_, rfl, by simp [initFilter], by simp [initFilter, hf]⟩
  by_cases hs : s = "" <;> simp [initTodos, hs, hparse]

/-- Witness for the amended C7 at a concrete input. -/
theorem init_defaults_witness :
    initTodos none (fun _ => none) = [] ∧
    initTodos (some "bad json") (fun _ => none) = [] ∧
    initFilter none = "all" ∧
    initFilter (some "") = "all" ∧
    initFilter (some "done") = "done" :=
  init_defaults (fun _ => none) "bad json" "done" rfl (by decide)

/-- C8 counterexample: initialization from persisted data performs no
uniqueness validation, so a stored value parsing to two tasks with the
same id produces a state with duplicate ids. -/
theorem init_duplicate_ids :
    ¬ (ids (initTodos (some "persisted")
        (fun _ => some [⟨"a", "first", false⟩, ⟨"a", "second", true⟩]))).Nodup := by
  decide

/-- C8 amended: the operations preserve id uniqueness — add keeps it
whenever the freshly generated id is distinct from the existing ones,
toggle never changes the id sequence, delete only removes ids, and
setFilter does not touch the task list — but the state loaded from
persisted data is not validated, so uniqueness can fail at startup. -/
theorem ops_preserve_unique_ids (newId title X mode : String)
    (todos : List Task) (st : AppState)
    (hnd : (ids todos).Nodup) (hfresh : newId ∉ ids todos) :
    (ids (handleAddTodo newId title todos)).Nodup ∧
    (ids (handleToggleTodo X todos)).Nodup ∧
    (ids (handleDeleteTodo X todos)).Nodup ∧
    (setFilter mode st).todos = st.todos := by
  refine ⟨?_, ?_, ?_, rfl⟩
  · simp only [handleAddTodo, ids, List.map_append, List.map_cons,
      List.map_nil]
    rw [List.nodup_append]
    refine ⟨hnd, List.nodup_singleton newId, ?_⟩
    intro a ha hb
    simp only [List.mem_singleton] at hb
    exact hfresh (hb ▸ ha)
  · rw [ids_toggle]
    exact hnd
  · exact ((List.filter_sublist todos).map Task.id).nodup hnd

/-- Witness for the amended C8 at a concrete input. -/
theorem ops_preserve_unique_ids_witness :
    (ids (handleAddTodo "c" "t" [⟨"a", "x", false⟩, ⟨"b", "y", true⟩])).Nodup ∧
    (ids (handleToggleTodo "a" [⟨"a", "x", false⟩, ⟨"b", "y", true⟩])).Nodup ∧
    (ids (handleDeleteTodo "a" [⟨"a", "x", false⟩, ⟨"b", "y", true⟩])).Nodup ∧
    (setFilter "done" ⟨[⟨"a", "x", false⟩], "all"⟩).todos
        = (⟨[⟨"a", "x", false⟩], "all"⟩ : AppState).todos :=
  ops_preserve_unique_ids "c" "t" "a" "done"
    [⟨"a", "x", false⟩, ⟨"b", "y", true⟩] ⟨[⟨"a", "x", false⟩], "all"⟩
    (by decide) (by decide)

/-- C9: toggling or deleting an id carried by no task in the sequence
leaves the sequence unchanged — a silent no-op, not an error. -/
theorem unknown_id_noop (X : String) (todos : List Task)
    (h : X ∉ ids todos) :
    handleToggleTodo X todos = todos ∧ handleDeleteTodo X todos = todos :=
  ⟨toggle_not_mem X todos h, delete_not_mem X todos h⟩

/-- Witness for C9 at a concrete input. -/
theorem unknown_id_noop_witness :
    handleToggleTodo "z" [⟨"a", "x", false⟩] = [⟨"a", "x", false⟩] ∧
    handleDeleteTodo "z" [⟨"a", "x", false⟩] = [⟨"a", "x", false⟩] :=
  unknown_id_noop "z" [⟨"a", "x", false⟩] (by decide)

/-- C10: for every filter value other than `"active"` and `"done"` —
including arbitrary strings restored unvalidated from storage — the
derived view returns the full task sequence in its original order. -/
theorem filteredTodos_default_all (f : String) (todos : List Task)
    (h1 : f ≠ "active") (h2 : f ≠ "done") :
    filteredTodos f todos = todos := by
  simp [filteredTodos, h1, h2]

/-- Witness for C10 at a concrete input. -/
theorem filteredTodos_default_all_witness :
    filteredTodos "banana" [⟨"a", "x", true⟩, ⟨"b", "y", false⟩]
      = [⟨"a", "x", true⟩, ⟨"b", "y", false⟩] :=
  filteredTodos_default_all "banana" [⟨"a", "x", true⟩, ⟨"b", "y", false⟩]
    (by decide) (by decide)

end Todo
